import Mathlib

/-!
Verification of `projects/allocator/Allocator.h`: a fixed-capacity boundary-tag
allocator managing a `char a[N]` buffer.  Sentinels are C `int`s (4 bytes,
two's complement) overlaid on the buffer; `size_type` is `size_t` (64 bits).

The buffer is modelled as a `List Int` of bytes (one entry per `char`, each
read masked to the range 0..255); byte offsets into the buffer are `Int`s so
that out-of-range pointer arithmetic is representable.  An out-of-range read
yields byte 0; an out-of-range write is dropped (`List.set` is a no-op out of
range).  The int codec is little-endian, a choice the source leaves to the
implementation (it reads with the same overlay it writes with, so only
consistency matters).  Arithmetic mixing `int` and `size_t` follows C's usual
conversions: the `int` operand is converted to `size_t` (modulo 2^64) and the
result compared or narrowed (modulo 2^32) exactly where the source does so.
-/

deriving instance DecidableEq for Except

/-- Interpretation of a 32-bit two's-complement pattern: `sign32 v` is the
value of the `int` whose bit pattern is `v` modulo 2^32. -/
def sign32 (v : Int) : Int :=
  if v % 4294967296 < 2147483648 then v % 4294967296 else v % 4294967296 - 4294967296

/-- Conversion of an integer value to `size_t` (reduction modulo 2^64), as in
C's usual arithmetic conversions when an `int` meets a `size_t`. -/
def usize (v : Int) : Int := v % 18446744073709551616

/-- Read of the byte at offset `i` of the buffer: out-of-range offsets yield
0, in-range bytes are masked to 0..255. -/
def readByte (m : List Int) (i : Int) : Int :=
  (if 0 ≤ i then m.getD i.toNat 0 else 0) % 256

/-- Read of the `int` whose first byte is at offset `i` (little endian),
modelling `*(int*)(a + i)`. -/
def readInt (m : List Int) (i : Int) : Int :=
  let u := readByte m i + 256 * readByte m (i + 1) + 65536 * readByte m (i + 2) +
    16777216 * readByte m (i + 3)
  if u < 2147483648 then u else u - 4294967296

/-- Write of one byte at offset `i`; a no-op out of range. -/
def writeByte (m : List Int) (i : Int) (b : Int) : List Int :=
  if 0 ≤ i then m.set i.toNat b else m

/-- Write of the `int` value `v` at offset `i` (little endian), modelling
`*(int*)(a + i) = v` and `write_sentinel_to_arr`; `v` is narrowed modulo
2^32 as assignment to `int` does. -/
def writeInt (m : List Int) (i : Int) (v : Int) : List Int :=
  let u := v % 4294967296
  writeByte (writeByte (writeByte (writeByte m i (u % 256))
    (i + 1) (u / 256 % 256)) (i + 2) (u / 65536 % 256)) (i + 3) (u / 16777216 % 256)

/-- Little-endian 4-byte image of the `int` value `v`, the bytes that
`writeInt` stores. -/
def encInt (v : Int) : List Int :=
  [v % 4294967296 % 256, v % 4294967296 / 256 % 256,
   v % 4294967296 / 65536 % 256, v % 4294967296 / 16777216 % 256]

/-- Translation of `Allocator::valid` (Allocator.h lines 110-139).  `sT` is
`sizeof(T)`; the buffer length plays the role of `N`.  The loop runs while
`i < &a[N-sizeof(int)]`; each iteration checks the footer against the header,
rejects a free block after a free block (`can_be_free`), and rejects a free
block smaller than `sizeof(T)`.  `fuel` bounds the recursion; the loop
condition is tested before the fuel so that exhaustion (unreachable for
`fuel > number of blocks`) never changes an exit already decided. -/
def validAux (sT : Nat) (m : List Int) (fuel : Nat) (i : Nat) (can_be_free : Bool) : Bool :=
  if (i : Int) < (m.length : Int) - 4 then
    match fuel with
    | 0 => true
    | fuel + 1 =>
      let hdr := readInt m i
      let diff := hdr.natAbs + 4
      if hdr ≠ readInt m (i + diff) then false
      else if 0 < hdr then
        if !can_be_free then false
        else if hdr < (sT : Int) then false
        else validAux sT m fuel (i + diff + 4) false
      else validAux sT m fuel (i + diff + 4) true
  else true

/-- Entry point of `Allocator::valid`: scan from offset 0 with
`can_be_free = true`. -/
def validB (sT : Nat) (m : List Int) : Bool :=
  validAux sT m (m.length + 1) 0 true

/-- Translation of the scan loop of `Allocator::allocate` (lines 241-262).
`n` is the requested byte count (already multiplied by `sizeof(T)`).  The fit
test `*(int*)i >= n && *(int*)i > 0` compares the header converted to
`size_t` against `n`; the split test `*((int*)i)-(n+2*sizeof(int)) >=
sizeof(T)+2*sizeof(int)` is likewise a `size_t` comparison, so it wraps
around when the header is smaller than `n + 8`.  On selection the writes are
performed in source order and the payload pointer `i + sizeof(int)` is
returned; falling off the end models the final `throw bad_alloc()`. -/
def allocateAux (sT : Nat) (n : Nat) (m : List Int) (fuel : Nat) (i : Nat) :
    Except Unit Int × List Int :=
  if i < m.length then
    match fuel with
    | 0 => (Except.error (), m)
    | fuel + 1 =>
      let hdr := readInt m i
      if (n : Int) ≤ usize hdr ∧ 0 < hdr then
        if (sT : Int) + 8 ≤ usize (hdr - ((n : Int) + 8)) then
          let old := hdr
          let m1 := writeInt m i (-1 * (n : Int))
          let m2 := writeInt m1 ((i : Int) + 4 + (n : Int)) (-1 * (n : Int))
          let m3 := writeInt m2 ((i : Int) + 8 + (n : Int)) (old - (n : Int) - 8)
          let m4 := writeInt m3 ((i : Int) + old + 4) (old - (n : Int) - 8)
          (Except.ok ((i : Int) + 4), m4)
        else
          let old := hdr
          let m1 := writeInt m i (-1 * old)
          let m2 := writeInt m1 ((i : Int) + 4 + old) (-1 * old)
          (Except.ok ((i : Int) + 4), m2)
      else allocateAux sT n m fuel (i + 8 + hdr.natAbs)
  else (Except.error (), m)

/-- Translation of `Allocator::allocate` (lines 236-268).  `count` is the
`size_type` argument; `n *= sizeof(T)` is a `size_t` multiplication and
`n <= 0` on the unsigned `n` means `n == 0`.  The result pairs the returned
payload offset (or the `bad_alloc` outcome) with the buffer after the call. -/
def allocate (sT : Nat) (m : List Int) (count : Nat) : Except Unit Int × List Int :=
  let n := count * sT % 18446744073709551616
  if n = 0 then (Except.error (), m)
  else allocateAux sT n m (m.length + 1) 0

/-- Translation of `Allocator::pointer_valid` (lines 346-361): scan from the
start; after stepping over a header, a match with `p` means valid, an
overshoot means invalid. -/
def pointer_validAux (m : List Int) (p : Int) (fuel : Nat) (i : Nat) : Bool :=
  if i < m.length then
    match fuel with
    | 0 => false
    | fuel + 1 =>
      let size := (readInt m i).natAbs
      if ((i : Int) + 4) = p then true
      else if p < ((i : Int) + 4) then false
      else pointer_validAux m p fuel (i + 4 + size + 4)
  else false

/-- Entry point of `Allocator::pointer_valid`. -/
def pointer_valid (m : List Int) (p : Int) : Bool :=
  pointer_validAux m p (m.length + 1) 0

/-- Result of a `deallocate` call: the error flag (`invalid_argument`), the
buffer afterwards, and the trace of offsets at which the body read an `int`
(the validation read at `p - 4` and the two neighbor-sentinel reads), in
evaluation order. -/
structure DResult where
  err : Bool
  mem : List Int
  reads : List Int
  deriving Repr, DecidableEq

/-- Translation of `Allocator::deallocate` (lines 299-332).  The unused size
argument `k` is kept to mirror the source signature.  Short-circuit order is
preserved: the header read at `p - 4` happens only if `pointer_valid` holds,
and each neighbor sentinel is read before its bounds test (`pc >= a`,
`pc < a+N`), exactly as in `*(int*)pc > 0 && pc >= a`. -/
def deallocate (m : List Int) (p : Int) (k : Nat) : DResult :=
  if !pointer_valid m p then ⟨true, m, []⟩
  else
    let r0 := readInt m (p - 4)
    if 0 < r0 then ⟨true, m, [p - 4]⟩
    else
      let size := -1 * r0
      let m1 := writeInt m (p - 4) size
      let pc1 := p + size
      let m2 := writeInt m1 pc1 size
      let pc2 := pc1 - (size + 8)
      let rL := readInt m2 pc2
      let (mL, sizeL, pcL) :=
        if 0 < rL ∧ 0 ≤ pc2 then
          let sum := rL + size + 8
          let pc3 := pc2 - (sum - size - 4)
          let m3 := writeInt m2 pc3 sum
          let pc4 := pc3 + sum + 4
          let m4 := writeInt m3 pc4 sum
          (m4, sum, pc4 - (sum + 8))
        else (m2, size, pc2)
      let pcR := pcL + sizeL + 12
      let rR := readInt mL pcR
      if 0 < rR ∧ pcR < (mL.length : Int) then
        let sum := rR + sizeL + 8
        let pc5 := pcR + (sum - sizeL - 4)
        let m5 := writeInt mL pc5 sum
        let pc6 := pc5 - (sum + 4)
        let m6 := writeInt m5 pc6 sum
        ⟨false, m6, [p - 4, pc2, pcR]⟩
      else ⟨false, mL, [p - 4, pc2, pcR]⟩

/-- Translation of the `Allocator` constructor (lines 201-211): `bad_alloc`
when `N < sizeof(T) + 2*sizeof(int)`; otherwise the sentinel
`int avail = N - 2*sizeof(int)` is written at offsets 0 and `N - sizeof(int)`
over the (arbitrary) initial contents `m0` of the uninitialized buffer. -/
def constructA (sT : Nat) (m0 : List Int) : Except Unit (List Int) :=
  if m0.length < sT + 8 then Except.error ()
  else
    let avail : Int := (m0.length : Int) - 8
    Except.ok (writeInt (writeInt m0 0 avail) ((m0.length : Int) - 4) avail)

/-- Translation of `operator ==` (lines 74-76): every allocator equals every
other. -/
def allocEq (x y : List Int) : Bool := true

/-- Translation of `operator !=` (lines 86-87): negation of `operator ==`. -/
def allocNeq (x y : List Int) : Bool := !(allocEq x y)

/-!
Spec-side block abstraction.  A buffer satisfying the spec's invariants is
the encoding of a list of blocks: each block contributes its header sentinel,
its payload bytes, and its footer sentinel.  `blocksWF` states the spec's
invariants 1-4 on the list (matching sentinels and exact tiling are built
into the encoding; the free-block constraints are explicit).
-/

/-- Abstract block: signed sentinel value and payload bytes. -/
structure Block where
  tag : Int
  payload : List Int
  deriving Repr, DecidableEq

/-- Concrete bytes of one block: header sentinel, payload, footer sentinel. -/
def Block.enc (b : Block) : List Int := encInt b.tag ++ b.payload ++ encInt b.tag

/-- Concrete bytes of a buffer tiled exactly by the given blocks. -/
def encBlocks (bs : List Block) : List Int := bs.flatMap Block.enc

/-- Shape constraints of a representable block: a nonzero sentinel in `int`
range whose magnitude is the payload length. -/
def Block.wfShape (b : Block) : Prop :=
  b.tag ≠ 0 ∧ b.tag.natAbs < 2147483648 ∧ b.payload.length = b.tag.natAbs

/-- Invariants of the spec on a block list: every block well-shaped, every
free block at least `sizeof(T)` big, and no two adjacent free blocks. -/
def blocksWF (sT : Nat) (bs : List Block) : Prop :=
  (∀ b ∈ bs, b.wfShape ∧ (0 < b.tag → (sT : Int) ≤ b.tag)) ∧
  List.Chain' (fun x y => ¬(0 < x.tag ∧ 0 < y.tag)) bs

instance (b : Block) : Decidable b.wfShape :=
  inferInstanceAs (Decidable (b.tag ≠ 0 ∧ b.tag.natAbs < 2147483648 ∧
    b.payload.length = b.tag.natAbs))

def chainDec : (bs : List Block) →
    Decidable (List.Chain' (fun x y : Block => ¬(0 < x.tag ∧ 0 < y.tag)) bs)
  | [] => isTrue List.chain'_nil
  | [_] => isTrue (List.chain'_singleton _)
  | x :: y :: rest =>
    match chainDec (y :: rest) with
    | isTrue h =>
      if hxy : 0 < x.tag ∧ 0 < y.tag then
        isFalse (fun hc => (List.chain'_cons.mp hc).1 hxy)
      else isTrue (List.chain'_cons.mpr ⟨hxy, h⟩)
    | isFalse h => isFalse (fun hc => h (List.chain'_cons.mp hc).2)

instance (bs : List Block) :
    Decidable (List.Chain' (fun x y : Block => ¬(0 < x.tag ∧ 0 < y.tag)) bs) :=
  chainDec bs

instance (sT : Nat) (bs : List Block) : Decidable (blocksWF sT bs) :=
  inferInstanceAs (Decidable ((∀ b ∈ bs, b.wfShape ∧ (0 < b.tag → (sT : Int) ≤ b.tag)) ∧
    List.Chain' (fun x y : Block => ¬(0 < x.tag ∧ 0 < y.tag)) bs))

/-- Payload-start offsets of the blocks, in order, starting at offset `off`:
a block's payload starts one sentinel width after its header. -/
def payloadStarts (off : Nat) : List Block → List Int
  | [] => []
  | b :: bs => ((off : Int) + 4) :: payloadStarts (off + 8 + b.tag.natAbs) bs

/-- Block whose payload starts exactly at offset `p`, if any. -/
def blockAt (off : Nat) (p : Int) : List Block → Option Block
  | [] => none
  | b :: bs => if ((off : Int) + 4) = p then some b else blockAt (off + 8 + b.tag.natAbs) p bs

/-- Offsets visited by `valid`'s traversal (header positions), with the same
step and the same stopping rule as the loop of `Allocator::valid`. -/
def travList (m : List Int) (fuel : Nat) (i : Nat) : List Nat :=
  if (i : Int) < (m.length : Int) - 4 then
    match fuel with
    | 0 => []
    | fuel + 1 => i :: travList m fuel (i + (readInt m i).natAbs + 8)
  else []

/-- Modelled from the spec: final offset of the traversal that starts at
offset 0 and steps by `payload size + 2 sentinel widths` while strictly
inside the buffer; the spec says `valid` is true only when this equals `N`. -/
def consumeStopA (m : List Int) (fuel : Nat) (i : Nat) : Nat :=
  if i < m.length then
    match fuel with
    | 0 => i
    | fuel + 1 => consumeStopA m fuel (i + (readInt m i).natAbs + 8)
  else i

/-- Modelled from the spec: the block traversal consumes the buffer exactly,
terminating precisely at byte `N`, not before and not past it. -/
def consumesExactly (m : List Int) : Prop :=
  consumeStopA m (m.length + 1) 0 = m.length

instance (m : List Int) : Decidable (consumesExactly m) :=
  inferInstanceAs (Decidable (consumeStopA m (m.length + 1) 0 = m.length))

/-- Per-block checks of `valid` at a header offset `o`: the footer at
`o + |payload| + 4` equals the header, and a free block is at least
`sizeof(T)` big. -/
def blockOK (sT : Nat) (m : List Int) (o : Nat) : Prop :=
  readInt m o = readInt m (o + (readInt m o).natAbs + 4) ∧
  (0 < readInt m o → (sT : Int) ≤ readInt m o)

instance (sT : Nat) (m : List Int) (o : Nat) : Decidable (blockOK sT m o) :=
  inferInstanceAs (Decidable (readInt m o = readInt m (o + (readInt m o).natAbs + 4) ∧
    (0 < readInt m o → (sT : Int) ≤ readInt m o)))

/-!
Concrete buffers used by the refutations and bug demonstrations below.
-/

/-- Buffer of a freshly constructed `Allocator<int, 100>` (`sizeof(T) = 4`,
`N = 100`, zero-initialized model buffer): one free block of payload 92. -/
def demo100 : List Int := (constructA 4 (List.replicate 100 0)).toOption.getD []

/-- Buffer with one free block of payload 16 (`Allocator<int, 24>` state). -/
def demo24 : List Int := encBlocks [⟨16, List.replicate 16 0⟩]

/-- Buffer of length 16 whose first 12 bytes are one allocated block of
payload 4 and whose last 4 bytes are uninterpreted junk. -/
def demo16 : List Int := encBlocks [⟨-4, [0, 0, 0, 0]⟩] ++ [7, 7, 7, 7]

/-- Buffer produced by constructing `Allocator<int, 2147483656>` over a
zeroed initial region: capacity 2^31 + 8, whose sentinel value 2^31
overflows `int`. -/
def c6big : List Int :=
  writeInt (writeInt (List.replicate 2147483656 0) 0 (((2147483656 : Nat) : Int) - 8))
    (((2147483656 : Nat) : Int) - 4) (((2147483656 : Nat) : Int) - 8)
theorem encInt_length (v : Int) : (encInt v).length = 4 := rfl

theorem writeByte_length (m : List Int) (i b : Int) : (writeByte m i b).length = m.length := by
  unfold writeByte; split <;> simp

theorem writeInt_length (m : List Int) (i v : Int) : (writeInt m i v).length = m.length := by
  unfold writeInt; simp [writeByte_length]

theorem sign32_eq_self (v : Int) (h1 : -2147483648 ≤ v) (h2 : v < 2147483648) :
    sign32 v = v := by
  unfold sign32; omega

theorem usize_eq_self (v : Int) (h1 : 0 ≤ v) (h2 : v < 18446744073709551616) :
    usize v = v := by
  unfold usize; omega

theorem readByte_append_right (xs ys : List Int) (k : Nat) :
    readByte (xs ++ ys) ((xs.length + k : Nat) : Int) = readByte ys (k : Int) := by
  unfold readByte
  rw [if_pos (by positivity), if_pos (by positivity), Int.toNat_natCast, Int.toNat_natCast,
    List.getD_append_right _ _ _ _ (Nat.le_add_right _ _)]
  simp

theorem readInt_append_right (xs ys : List Int) (k : Nat) :
    readInt (xs ++ ys) ((xs.length + k : Nat) : Int) = readInt ys (k : Int) := by
  unfold readInt
  rw [show ((xs.length + k : Nat) : Int) + 1 = ((xs.length + (k + 1) : Nat) : Int) by push_cast; ring,
    show ((xs.length + k : Nat) : Int) + 2 = ((xs.length + (k + 2) : Nat) : Int) by push_cast; ring,
    show ((xs.length + k : Nat) : Int) + 3 = ((xs.length + (k + 3) : Nat) : Int) by push_cast; ring,
    show ((k : Nat) : Int) + 1 = ((k + 1 : Nat) : Int) by push_cast; ring,
    show ((k : Nat) : Int) + 2 = ((k + 2 : Nat) : Int) by push_cast; ring,
    show ((k : Nat) : Int) + 3 = ((k + 3 : Nat) : Int) by push_cast; ring,
    readByte_append_right, readByte_append_right, readByte_append_right, readByte_append_right]

theorem decode4 (u : Int) (h1 : 0 ≤ u) (h2 : u < 4294967296) (rest : List Int) :
    readInt ((u % 256) :: (u / 256 % 256) :: (u / 65536 % 256) :: (u / 16777216 % 256) :: rest) 0
      = (if u < 2147483648 then u else u - 4294967296) := by
  unfold readInt readByte
  norm_num [List.getD_cons_zero, List.getD_cons_succ, show Int.toNat 2 = 2 from rfl,
    show Int.toNat 3 = 3 from rfl, List.getElem?_cons_zero, List.getElem?_cons_succ]
  have hsum : u % 256 + 256 * (u / 256 % 256) + 65536 * (u / 65536 % 256) +
      16777216 * (u / 16777216 % 256) = u := by omega
  rw [hsum]

theorem readInt_encInt (v : Int) (rest : List Int) :
    readInt (encInt v ++ rest) 0 = sign32 v := by
  have h1 : (0:Int) ≤ v % 4294967296 := Int.emod_nonneg v (by norm_num)
  have h2 : v % 4294967296 < 4294967296 := Int.emod_lt_of_pos v (by norm_num)
  have h := decode4 (v % 4294967296) h1 h2 rest
  simpa [encInt, sign32] using h

theorem readInt_at (front : List Int) (v : Int) (rest : List Int) :
    readInt (front ++ encInt v ++ rest) (front.length : Int) = sign32 v := by
  have h := readInt_append_right front (encInt v ++ rest) 0
  simpa [readInt_encInt] using h

theorem readInt_at_of_eq (front : List Int) (v : Int) (rest : List Int) (i : Int)
    (hi : i = (front.length : Int)) :
    readInt (front ++ encInt v ++ rest) i = sign32 v := by
  rw [hi]; exact readInt_at front v rest

theorem readInt_of_le_neg4 (m : List Int) (i : Int) (h : i ≤ -4) : readInt m i = 0 := by
  unfold readInt readByte
  have g : ∀ j : Int, j < 0 → (if 0 ≤ j then m.getD j.toNat 0 else 0) = 0 := by
    intro j hj
    rw [if_neg (by omega)]
  rw [g i (by omega), g (i + 1) (by omega), g (i + 2) (by omega), g (i + 3) (by omega)]
  norm_num

theorem readInt_of_length_le (m : List Int) (i : Int) (h : (m.length : Int) ≤ i) :
    readInt m i = 0 := by
  unfold readInt readByte
  have g : ∀ j : Int, (m.length : Int) ≤ j → (if 0 ≤ j then m.getD j.toNat 0 else 0) = 0 := by
    intro j hj
    split
    · exact List.getD_eq_default _ _ (by omega)
    · rfl
  rw [g i h, g (i+1) (by omega), g (i+2) (by omega), g (i+3) (by omega)]
  norm_num

theorem writeByte_append_right (xs ys : List Int) (k : Nat) (b : Int) :
    writeByte (xs ++ ys) ((xs.length + k : Nat) : Int) b = xs ++ writeByte ys (k : Int) b := by
  unfold writeByte
  rw [if_pos (by positivity), if_pos (by positivity), Int.toNat_natCast, Int.toNat_natCast,
    List.set_append, if_neg (by omega)]
  simp

theorem writeInt_append_right (xs ys : List Int) (k : Nat) (v : Int) :
    writeInt (xs ++ ys) ((xs.length + k : Nat) : Int) v = xs ++ writeInt ys (k : Int) v := by
  simp only [writeInt]
  rw [show ((xs.length + k : Nat) : Int) + 1 = ((xs.length + (k + 1) : Nat) : Int) by push_cast; ring,
    show ((xs.length + k : Nat) : Int) + 2 = ((xs.length + (k + 2) : Nat) : Int) by push_cast; ring,
    show ((xs.length + k : Nat) : Int) + 3 = ((xs.length + (k + 3) : Nat) : Int) by push_cast; ring,
    show ((k : Nat) : Int) + 1 = ((k + 1 : Nat) : Int) by push_cast; ring,
    show ((k : Nat) : Int) + 2 = ((k + 2 : Nat) : Int) by push_cast; ring,
    show ((k : Nat) : Int) + 3 = ((k + 3 : Nat) : Int) by push_cast; ring,
    writeByte_append_right, writeByte_append_right, writeByte_append_right, writeByte_append_right]

theorem writeInt_cons4 (a b c d : Int) (rest : List Int) (v : Int) :
    writeInt (a :: b :: c :: d :: rest) 0 v = encInt v ++ rest := by
  unfold writeInt writeByte encInt
  norm_num [show Int.toNat 2 = 2 from rfl, show Int.toNat 3 = 3 from rfl]

theorem writeInt_append_mid (front mid rest : List Int) (v : Int) (h : mid.length = 4) :
    writeInt (front ++ mid ++ rest) (front.length : Int) v = front ++ encInt v ++ rest := by
  match mid, h with
  | [a, b, c, d], _ =>
    have h0 := writeInt_append_right front ([a, b, c, d] ++ rest) 0 v
    simpa [writeInt_cons4] using h0

theorem writeInt_at_of_eq (front mid rest : List Int) (v : Int) (i : Int)
    (h : mid.length = 4) (hi : i = (front.length : Int)) :
    writeInt (front ++ mid ++ rest) i v = front ++ encInt v ++ rest := by
  rw [hi]; exact writeInt_append_mid front mid rest v h

theorem Block.enc_length (b : Block) : b.enc.length = 8 + b.payload.length := by
  simp [Block.enc, encInt]; omega

theorem encBlocks_nil : encBlocks [] = [] := rfl

theorem encBlocks_cons (b : Block) (bs : List Block) :
    encBlocks (b :: bs) = b.enc ++ encBlocks bs := by
  simp [encBlocks]

theorem encBlocks_append (bs1 bs2 : List Block) :
    encBlocks (bs1 ++ bs2) = encBlocks bs1 ++ encBlocks bs2 := by
  simp [encBlocks]

theorem length_le_encBlocks (bs : List Block) : bs.length ≤ (encBlocks bs).length := by
  induction bs with
  | nil => simp [encBlocks]
  | cons b bs ih =>
    rw [encBlocks_cons]
    simp only [List.length_cons, List.length_append, Block.enc_length]
    omega

theorem allocateAux_succ (sT n : Nat) (m : List Int) (fuel i : Nat) :
    allocateAux sT n m (fuel + 1) i =
      if i < m.length then
        if (n : Int) ≤ usize (readInt m i) ∧ 0 < readInt m i then
          if (sT : Int) + 8 ≤ usize (readInt m i - ((n : Int) + 8)) then
            (Except.ok ((i : Int) + 4),
             writeInt (writeInt (writeInt (writeInt m i (-1 * (n : Int)))
               ((i : Int) + 4 + (n : Int)) (-1 * (n : Int)))
               ((i : Int) + 8 + (n : Int)) (readInt m i - (n : Int) - 8))
               ((i : Int) + readInt m i + 4) (readInt m i - (n : Int) - 8))
          else
            (Except.ok ((i : Int) + 4),
             writeInt (writeInt m i (-1 * readInt m i))
               ((i : Int) + 4 + readInt m i) (-1 * readInt m i))
        else allocateAux sT n m fuel (i + 8 + (readInt m i).natAbs)
      else (Except.error (), m) := rfl

theorem allocateAux_exit (sT n : Nat) (m : List Int) (fuel i : Nat) (h : ¬(i < m.length)) :
    allocateAux sT n m fuel i = (Except.error (), m) := by
  unfold allocateAux
  rw [if_neg h]

theorem validAux_succ (sT : Nat) (m : List Int) (fuel i : Nat) (cbf : Bool) :
    validAux sT m (fuel + 1) i cbf =
      if (i : Int) < (m.length : Int) - 4 then
        if readInt m i ≠ readInt m (i + ((readInt m i).natAbs + 4)) then false
        else if 0 < readInt m i then
          if !cbf then false
          else if readInt m i < (sT : Int) then false
          else validAux sT m fuel (i + ((readInt m i).natAbs + 4) + 4) false
        else validAux sT m fuel (i + ((readInt m i).natAbs + 4) + 4) true
      else true := rfl

theorem validAux_exit (sT : Nat) (m : List Int) (fuel i : Nat) (cbf : Bool)
    (h : ¬((i : Int) < (m.length : Int) - 4)) :
    validAux sT m fuel i cbf = true := by
  unfold validAux
  rw [if_neg h]

theorem pointer_validAux_succ (m : List Int) (p : Int) (fuel i : Nat) :
    pointer_validAux m p (fuel + 1) i =
      if i < m.length then
        if ((i : Int) + 4) = p then true
        else if p < ((i : Int) + 4) then false
        else pointer_validAux m p fuel (i + 4 + (readInt m i).natAbs + 4)
      else false := rfl

theorem pointer_validAux_exit (m : List Int) (p : Int) (fuel i : Nat) (h : ¬(i < m.length)) :
    pointer_validAux m p fuel i = false := by
  unfold pointer_validAux
  rw [if_neg h]

theorem readInt_block_head (front : List Int) (b : Block) (rest : List Int)
    (hlt : b.tag.natAbs < 2147483648) :
    readInt (front ++ b.enc ++ rest) (front.length : Int) = b.tag := by
  have hm : front ++ b.enc ++ rest
      = front ++ encInt b.tag ++ (b.payload ++ encInt b.tag ++ rest) := by
    simp [Block.enc, List.append_assoc]
  rw [hm, readInt_at]
  exact sign32_eq_self _ (by omega) (by omega)

theorem allocateAux_skip (sT n : Nat) (bs : List Block) :
    ∀ (front tailm : List Int) (fuel : Nat),
    (∀ b ∈ bs, b.wfShape) →
    (∀ b ∈ bs, ¬((n : Int) ≤ b.tag ∧ 0 < b.tag)) →
    allocateAux sT n (front ++ encBlocks bs ++ tailm) (fuel + bs.length) front.length
      = allocateAux sT n (front ++ encBlocks bs ++ tailm) fuel ((front ++ encBlocks bs).length) := by
  induction bs with
  | nil => intro front tailm fuel _ _; simp [encBlocks_nil]
  | cons b bs ih =>
    intro front tailm fuel hwf hnofit
    obtain ⟨ht0, htlt, hplen⟩ := hwf b (List.mem_cons_self b bs)
    have hread : readInt (front ++ encBlocks (b :: bs) ++ tailm) (front.length : Int) = b.tag := by
      rw [encBlocks_cons, show front ++ (b.enc ++ encBlocks bs) ++ tailm
        = front ++ b.enc ++ (encBlocks bs ++ tailm) by simp [List.append_assoc]]
      exact readInt_block_head front b _ htlt
    have hfuel : fuel + (b :: bs).length = (fuel + bs.length) + 1 := by
      simp [List.length_cons]; omega
    rw [hfuel, allocateAux_succ]
    have hlen : front.length < (front ++ encBlocks (b :: bs) ++ tailm).length := by
      rw [encBlocks_cons]
      simp [Block.enc_length]
    rw [if_pos hlen, hread]
    have hnf : ¬((n : Int) ≤ usize b.tag ∧ 0 < b.tag) := by
      rintro ⟨h1, h2⟩
      refine hnofit b (List.mem_cons_self b bs) ⟨?_, h2⟩
      rwa [usize_eq_self _ (by omega) (by omega)] at h1
    rw [if_neg hnf]
    have hadv : front.length + 8 + b.tag.natAbs = (front ++ b.enc).length := by
      simp [Block.enc_length, hplen]
      omega
    rw [hadv]
    have hassoc : front ++ encBlocks (b :: bs) ++ tailm
        = (front ++ b.enc) ++ encBlocks bs ++ tailm := by
      rw [encBlocks_cons]; simp [List.append_assoc]
    rw [hassoc]
    have hend : (front ++ encBlocks (b :: bs)).length = ((front ++ b.enc) ++ encBlocks bs).length := by
      rw [encBlocks_cons]; simp [List.append_assoc]
    rw [hend]
    exact ih (front ++ b.enc) tailm fuel
      (fun b' hb' => hwf b' (List.mem_cons_of_mem b hb'))
      (fun b' hb' => hnofit b' (List.mem_cons_of_mem b hb'))

theorem allocateAux_found_whole (sT n : Nat) (front : List Int) (b : Block) (tailm : List Int)
    (fuel : Nat) (hsh : b.wfShape) (hpos : 0 < b.tag) (hfit : (n : Int) ≤ b.tag)
    (h8 : 8 ≤ b.tag - (n : Int)) (hlt : b.tag - (n : Int) < (sT : Int) + 16) :
    allocateAux sT n (front ++ b.enc ++ tailm) (fuel + 1) front.length
      = (Except.ok ((front.length : Int) + 4),
         front ++ Block.enc ⟨-b.tag, b.payload⟩ ++ tailm) := by
  obtain ⟨ht0, htlt, hplen⟩ := hsh
  have hread : readInt (front ++ b.enc ++ tailm) (front.length : Int) = b.tag :=
    readInt_block_head front b tailm htlt
  rw [allocateAux_succ]
  have hlen : front.length < (front ++ b.enc ++ tailm).length := by
    simp [Block.enc_length]
  rw [if_pos hlen, hread]
  rw [if_pos (And.intro (by rwa [usize_eq_self _ (by omega) (by omega)]) hpos)]
  rw [if_neg (by rw [usize_eq_self _ (by omega) (by omega)]; omega)]
  rw [show (-1 * b.tag) = -b.tag by ring]
  have hm1 : front ++ b.enc ++ tailm
      = front ++ encInt b.tag ++ (b.payload ++ (encInt b.tag ++ tailm)) := by
    simp [Block.enc, List.append_assoc]
  rw [hm1, writeInt_at_of_eq front (encInt b.tag) (b.payload ++ (encInt b.tag ++ tailm))
    (-b.tag) _ (encInt_length _) rfl]
  have hm2 : front ++ encInt (-b.tag) ++ (b.payload ++ (encInt b.tag ++ tailm))
      = (front ++ encInt (-b.tag) ++ b.payload) ++ encInt b.tag ++ tailm := by
    simp [List.append_assoc]
  rw [hm2, writeInt_at_of_eq (front ++ encInt (-b.tag) ++ b.payload) (encInt b.tag) tailm
    (-b.tag) _ (encInt_length _) (by simp [encInt]; omega)]
  have hm3 : (front ++ encInt (-b.tag) ++ b.payload) ++ encInt (-b.tag) ++ tailm
      = front ++ Block.enc ⟨-b.tag, b.payload⟩ ++ tailm := by
    simp [Block.enc, List.append_assoc]
  rw [hm3]

theorem allocateAux_found_split (sT n : Nat) (front : List Int) (b : Block) (tailm : List Int)
    (fuel : Nat) (hsh : b.wfShape) (hpos : 0 < b.tag) (hfit : (n : Int) ≤ b.tag)
    (hth : (sT : Int) + 16 ≤ b.tag - (n : Int)) :
    allocateAux sT n (front ++ b.enc ++ tailm) (fuel + 1) front.length
      = (Except.ok ((front.length : Int) + 4),
         front ++ Block.enc ⟨-(n : Int), b.payload.take n⟩
           ++ Block.enc ⟨b.tag - (n : Int) - 8, b.payload.drop (n + 8)⟩ ++ tailm) := by
  obtain ⟨ht0, htlt, hplen⟩ := hsh
  have htag : (b.tag.natAbs : Int) = b.tag := by omega
  have hn8 : n + 8 ≤ b.payload.length := by omega
  have hA : ((b.payload.drop n).take 4).length = 4 := by
    simp [List.length_take, List.length_drop]
    omega
  have hB : ((b.payload.drop (n + 4)).take 4).length = 4 := by
    simp [List.length_take, List.length_drop]
    omega
  have htk : (b.payload.take n).length = n := by
    simp [List.length_take]
    omega
  have e1 : b.payload.drop n = (b.payload.drop n).take 4 ++ b.payload.drop (n + 4) := by
    conv_lhs => rw [← List.take_append_drop 4 (b.payload.drop n)]
    rw [List.drop_drop]
  have e2 : b.payload.drop (n + 4) = (b.payload.drop (n + 4)).take 4 ++ b.payload.drop (n + 8) := by
    conv_lhs => rw [← List.take_append_drop 4 (b.payload.drop (n + 4))]
    rw [List.drop_drop]
  have hsplit : b.payload
      = b.payload.take n ++ ((b.payload.drop n).take 4
        ++ ((b.payload.drop (n + 4)).take 4 ++ b.payload.drop (n + 8))) := by
    conv_lhs => rw [← List.take_append_drop n b.payload, e1, e2]
  have hread : readInt (front ++ b.enc ++ tailm) (front.length : Int) = b.tag :=
    readInt_block_head front b tailm htlt
  rw [allocateAux_succ]
  have hlen : front.length < (front ++ b.enc ++ tailm).length := by
    simp [Block.enc_length]
  rw [if_pos hlen, hread]
  rw [if_pos (And.intro (by rwa [usize_eq_self _ (by omega) (by omega)]) hpos)]
  rw [if_pos (by rw [usize_eq_self _ (by omega) (by omega)]; omega)]
  rw [show (-1 * (n : Int)) = -(n : Int) by ring]
  have hm1 : front ++ b.enc ++ tailm
      = front ++ encInt b.tag ++ (b.payload ++ (encInt b.tag ++ tailm)) := by
    simp [Block.enc, List.append_assoc]
  rw [hm1, writeInt_at_of_eq front (encInt b.tag) (b.payload ++ (encInt b.tag ++ tailm))
    (-(n : Int)) _ (encInt_length _) rfl]
  have hm2 : front ++ encInt (-(n : Int)) ++ (b.payload ++ (encInt b.tag ++ tailm))
      = (front ++ encInt (-(n : Int)) ++ b.payload.take n) ++ (b.payload.drop n).take 4
        ++ ((b.payload.drop (n + 4)).take 4 ++ (b.payload.drop (n + 8) ++ (encInt b.tag ++ tailm))) := by
    conv_lhs => rw [hsplit]
    simp only [List.append_assoc]
  rw [hm2, writeInt_at_of_eq (front ++ encInt (-(n : Int)) ++ b.payload.take n)
    ((b.payload.drop n).take 4) _ (-(n : Int)) _ hA
    (by simp only [List.length_append, encInt_length, htk]; push_cast; ring)]
  have hm3 : (front ++ encInt (-(n : Int)) ++ b.payload.take n) ++ encInt (-(n : Int))
        ++ ((b.payload.drop (n + 4)).take 4 ++ (b.payload.drop (n + 8) ++ (encInt b.tag ++ tailm)))
      = ((front ++ encInt (-(n : Int)) ++ b.payload.take n) ++ encInt (-(n : Int)))
        ++ (b.payload.drop (n + 4)).take 4
        ++ (b.payload.drop (n + 8) ++ (encInt b.tag ++ tailm)) := by
    simp [List.append_assoc]
  rw [hm3, writeInt_at_of_eq ((front ++ encInt (-(n : Int)) ++ b.payload.take n) ++ encInt (-(n : Int)))
    ((b.payload.drop (n + 4)).take 4) _ (b.tag - (n : Int) - 8) _ hB
    (by simp only [List.length_append, encInt_length, htk]; push_cast; ring)]
  have hm4 : ((front ++ encInt (-(n : Int)) ++ b.payload.take n) ++ encInt (-(n : Int)))
        ++ encInt (b.tag - (n : Int) - 8) ++ (b.payload.drop (n + 8) ++ (encInt b.tag ++ tailm))
      = (((front ++ encInt (-(n : Int)) ++ b.payload.take n) ++ encInt (-(n : Int)))
        ++ encInt (b.tag - (n : Int) - 8) ++ b.payload.drop (n + 8)) ++ encInt b.tag ++ tailm := by
    simp [List.append_assoc]
  rw [hm4, writeInt_at_of_eq (((front ++ encInt (-(n : Int)) ++ b.payload.take n)
      ++ encInt (-(n : Int))) ++ encInt (b.tag - (n : Int) - 8) ++ b.payload.drop (n + 8))
    (encInt b.tag) tailm (b.tag - (n : Int) - 8) _ (encInt_length _)
    (by simp only [List.length_append, encInt_length, htk, List.length_drop, hplen]; push_cast; omega)]
  have hm5 : (((front ++ encInt (-(n : Int)) ++ b.payload.take n) ++ encInt (-(n : Int)))
        ++ encInt (b.tag - (n : Int) - 8) ++ b.payload.drop (n + 8)) ++ encInt (b.tag - (n : Int) - 8) ++ tailm
      = front ++ Block.enc ⟨-(n : Int), b.payload.take n⟩
        ++ Block.enc ⟨b.tag - (n : Int) - 8, b.payload.drop (n + 8)⟩ ++ tailm := by
    simp [Block.enc, List.append_assoc]
  rw [hm5]

theorem payloadStarts_lb (bs : List Block) :
    ∀ (off : Nat), ∀ q ∈ payloadStarts off bs, (off : Int) + 4 ≤ q := by
  induction bs with
  | nil => intro off q hq; simp [payloadStarts] at hq
  | cons b bs ih =>
    intro off q hq
    simp only [payloadStarts, List.mem_cons] at hq
    rcases hq with rfl | hq
    · omega
    · have := ih (off + 8 + b.tag.natAbs) q hq
      omega

theorem pointer_validAux_blocks (bs : List Block) :
    ∀ (front : List Int) (p : Int) (fuel : Nat),
    (∀ b ∈ bs, b.wfShape) →
    (pointer_validAux (front ++ encBlocks bs) p (fuel + bs.length) front.length = true
      ↔ p ∈ payloadStarts front.length bs) := by
  induction bs with
  | nil =>
    intro front p fuel _
    rw [pointer_validAux_exit _ _ _ _ (by simp [encBlocks_nil])]
    simp [payloadStarts]
  | cons b bs ih =>
    intro front p fuel hwf
    obtain ⟨ht0, htlt, hplen⟩ := hwf b (List.mem_cons_self b bs)
    have hfuel : fuel + (b :: bs).length = (fuel + bs.length) + 1 := by
      simp [List.length_cons]; omega
    rw [hfuel, pointer_validAux_succ]
    have hlen : front.length < (front ++ encBlocks (b :: bs)).length := by
      rw [encBlocks_cons]
      simp [Block.enc_length]
    rw [if_pos hlen]
    by_cases h1 : ((front.length : Int) + 4) = p
    · rw [if_pos h1]
      simp [payloadStarts, h1]
    · rw [if_neg h1]
      by_cases h2 : p < (front.length : Int) + 4
      · rw [if_pos h2]
        simp only [Bool.false_eq_true, false_iff, payloadStarts, List.mem_cons]
        rintro (rfl | hq)
        · omega
        · have := payloadStarts_lb bs (front.length + 8 + b.tag.natAbs) p hq
          omega
      · rw [if_neg h2]
        have hread : readInt (front ++ encBlocks (b :: bs)) (front.length : Int) = b.tag := by
          rw [encBlocks_cons, show front ++ (b.enc ++ encBlocks bs)
            = front ++ b.enc ++ encBlocks bs by simp [List.append_assoc]]
          exact readInt_block_head front b _ htlt
        rw [hread]
        have hadv : front.length + 4 + b.tag.natAbs + 4 = (front ++ b.enc).length := by
          simp [Block.enc_length, hplen]
          omega
        rw [hadv]
        have hassoc : front ++ encBlocks (b :: bs) = (front ++ b.enc) ++ encBlocks bs := by
          rw [encBlocks_cons]; simp [List.append_assoc]
        rw [hassoc]
        have hih := ih (front ++ b.enc) p fuel (fun b' hb' => hwf b' (List.mem_cons_of_mem b hb'))
        rw [hih]
        have hoff : (front ++ b.enc).length = front.length + 8 + b.tag.natAbs := by
          simp [Block.enc_length, hplen]
          omega
        rw [hoff]
        simp only [payloadStarts, List.mem_cons]
        constructor
        · exact fun hq => Or.inr hq
        · rintro (rfl | hq)
          · omega
          · exact hq

theorem blockAt_isSome (p : Int) (bs : List Block) :
    ∀ (off : Nat), (blockAt off p bs).isSome ↔ p ∈ payloadStarts off bs := by
  induction bs with
  | nil => intro off; simp [blockAt, payloadStarts]
  | cons b bs ih =>
    intro off
    simp only [blockAt, payloadStarts, List.mem_cons]
    by_cases h : ((off : Int) + 4) = p
    · simp [h]
    · rw [if_neg h]
      rw [ih (off + 8 + b.tag.natAbs)]
      constructor
      · exact fun hq => Or.inr hq
      · rintro (rfl | hq)
        · omega
        · exact hq

theorem readInt_blockAt_header (bs : List Block) :
    ∀ (front tailm : List Int) (p : Int) (b : Block),
    (∀ b' ∈ bs, b'.wfShape) →
    blockAt front.length p bs = some b →
    readInt (front ++ encBlocks bs ++ tailm) (p - 4) = b.tag := by
  induction bs with
  | nil => intro front tailm p b _ h; simp [blockAt] at h
  | cons b0 bs ih =>
    intro front tailm p b hwf hba
    obtain ⟨ht0, htlt, hplen⟩ := hwf b0 (List.mem_cons_self b0 bs)
    simp only [blockAt] at hba
    by_cases h : ((front.length : Int) + 4) = p
    · rw [if_pos h] at hba
      cases hba
      rw [show p - 4 = (front.length : Int) by omega]
      rw [encBlocks_cons, show front ++ (b0.enc ++ encBlocks bs) ++ tailm
        = front ++ b0.enc ++ (encBlocks bs ++ tailm) by simp [List.append_assoc]]
      exact readInt_block_head front b0 _ htlt
    · rw [if_neg h] at hba
      have hassoc : front ++ encBlocks (b0 :: bs) ++ tailm
          = (front ++ b0.enc) ++ encBlocks bs ++ tailm := by
        rw [encBlocks_cons]; simp [List.append_assoc]
      rw [hassoc]
      apply ih (front ++ b0.enc) tailm p b (fun b' hb' => hwf b' (List.mem_cons_of_mem b0 hb'))
      rw [show (front ++ b0.enc).length = front.length + 8 + b0.tag.natAbs from by
        simp [Block.enc_length, hplen]; omega]
      exact hba

theorem pointer_valid_blocks (sT : Nat) (bs : List Block) (p : Int)
    (hwf : ∀ b ∈ bs, b.wfShape) :
    (pointer_valid (encBlocks bs) p = true ↔ p ∈ payloadStarts 0 bs) := by
  have hble : bs.length ≤ (encBlocks bs).length := length_le_encBlocks bs
  have hfuel : (encBlocks bs).length + 1
      = ((encBlocks bs).length + 1 - bs.length) + bs.length := by omega
  unfold pointer_valid
  rw [hfuel]
  have h := pointer_validAux_blocks bs [] p ((encBlocks bs).length + 1 - bs.length) hwf
  simpa using h

theorem deallocate_not_pv (m : List Int) (p : Int) (k : Nat)
    (hpv : pointer_valid m p = false) :
    deallocate m p k = ⟨true, m, []⟩ := by
  unfold deallocate
  rw [hpv]
  rfl

theorem deallocate_free_hdr (m : List Int) (p : Int) (k : Nat)
    (hpv : pointer_valid m p = true) (hr : 0 < readInt m (p - 4)) :
    deallocate m p k = ⟨true, m, [p - 4]⟩ := by
  unfold deallocate
  rw [hpv]
  simp only [Bool.not_true, Bool.false_eq_true, if_false]
  rw [if_pos hr]

theorem deallocate_err_false (m : List Int) (p : Int) (k : Nat)
    (hpv : pointer_valid m p = true) (hr : ¬ 0 < readInt m (p - 4)) :
    (deallocate m p k).err = false := by
  unfold deallocate
  rw [hpv]
  simp only [Bool.not_true, Bool.false_eq_true, if_false]
  rw [if_neg hr]
  split <;> split <;> rfl

theorem allocate_count_zero (sT : Nat) (m : List Int) :
    allocate sT m 0 = (Except.error (), m) := by
  simp [allocate]

theorem allocate_no_fit (sT count : Nat) (bs : List Block)
    (hwf : ∀ b ∈ bs, b.wfShape)
    (hs64 : count * sT < 18446744073709551616)
    (hnofit : ∀ b ∈ bs, ¬(((count * sT : Nat) : Int) ≤ b.tag ∧ 0 < b.tag)) :
    allocate sT (encBlocks bs) count = (Except.error (), encBlocks bs) := by
  unfold allocate
  rw [Nat.mod_eq_of_lt hs64]
  by_cases hn : count * sT = 0
  · rw [if_pos hn]
  · rw [if_neg hn]
    have hble : bs.length ≤ (encBlocks bs).length := length_le_encBlocks bs
    have hfuel : (encBlocks bs).length + 1
        = ((encBlocks bs).length + 1 - bs.length) + bs.length := by omega
    conv_lhs => rw [hfuel]
    have h := allocateAux_skip sT (count * sT) bs [] []
      ((encBlocks bs).length + 1 - bs.length) hwf hnofit
    simp only [List.nil_append, List.append_nil, List.length_nil] at h
    rw [h]
    exact allocateAux_exit _ _ _ _ _ (by omega)

theorem allocate_to_found (sT count : Nat) (pre : List Block) (b : Block) (post : List Block)
    (hwfpre : ∀ b' ∈ pre, b'.wfShape)
    (hpre : ∀ b' ∈ pre, ¬(((count * sT : Nat) : Int) ≤ b'.tag ∧ 0 < b'.tag))
    (hs64 : count * sT < 18446744073709551616) (hn0 : 0 < count * sT) :
    allocate sT (encBlocks (pre ++ b :: post)) count
      = allocateAux sT (count * sT) (encBlocks (pre ++ b :: post))
          ((encBlocks (pre ++ b :: post)).length + 1 - pre.length) (encBlocks pre).length := by
  unfold allocate
  rw [Nat.mod_eq_of_lt hs64, if_neg (by omega)]
  have hm : encBlocks (pre ++ b :: post) = encBlocks pre ++ encBlocks (b :: post) :=
    encBlocks_append pre (b :: post)
  have hble : pre.length ≤ (encBlocks pre).length := length_le_encBlocks pre
  have hble2 : (encBlocks pre).length ≤ (encBlocks (pre ++ b :: post)).length := by
    rw [hm]
    simp
  have hfuel : (encBlocks (pre ++ b :: post)).length + 1
      = ((encBlocks (pre ++ b :: post)).length + 1 - pre.length) + pre.length := by omega
  conv_lhs => rw [hfuel]
  have h := allocateAux_skip sT (count * sT) pre [] (encBlocks (b :: post))
    ((encBlocks (pre ++ b :: post)).length + 1 - pre.length) hwfpre hpre
  simp only [List.nil_append, List.length_nil] at h
  rw [← hm] at h
  exact h

theorem deallocate_eval_no_merge (m m2 : List Int) (p : Int) (k : Nat) (t : Int)
    (hpv : pointer_valid m p = true)
    (hr0 : readInt m (p - 4) = -t) (hpos : 0 < t)
    (hm2 : m2 = writeInt (writeInt m (p - 4) t) (p + t) t)
    (hL : ¬(0 < readInt m2 (p - 8) ∧ 0 ≤ p - 8))
    (hR : ¬(0 < readInt m2 (p + t + 4) ∧ p + t + 4 < (m2.length : Int))) :
    deallocate m p k = ⟨false, m2, [p - 4, p - 8, p + t + 4]⟩ := by
  unfold deallocate
  rw [hpv]
  simp only [Bool.not_true, Bool.false_eq_true, if_false]
  rw [hr0, if_neg (by omega)]
  rw [show (-1 : Int) * -t = t from by ring]
  rw [show p + t - (t + 8) = p - 8 from by ring]
  rw [← hm2]
  rw [if_neg hL]
  dsimp only
  rw [show p - 8 + t + 12 = p + t + 4 from by ring]
  rw [if_neg hR]

theorem payloadStarts_middle (b : Block) (post : List Block) (pre : List Block)
    (hwfpre : ∀ b' ∈ pre, b'.wfShape) :
    ∀ off : Nat, (((off + (encBlocks pre).length : Nat) : Int) + 4)
      ∈ payloadStarts off (pre ++ b :: post) := by
  induction pre with
  | nil =>
    intro off
    simp [payloadStarts, encBlocks_nil]
  | cons b0 pre ih =>
    intro off
    simp only [List.cons_append, payloadStarts, List.mem_cons]
    right
    have hsh := hwfpre b0 (List.mem_cons_self b0 pre)
    have hmem := ih (fun b' hb' => hwfpre b' (List.mem_cons_of_mem b0 hb')) (off + 8 + b0.tag.natAbs)
    have heq : ((off + (encBlocks (b0 :: pre)).length : Nat) : Int) + 4
        = (((off + 8 + b0.tag.natAbs) + (encBlocks pre).length : Nat) : Int) + 4 := by
      rw [encBlocks_cons]
      simp only [List.length_append, Block.enc_length, hsh.2.2]
      push_cast
      ring
    rw [heq]
    exact hmem


theorem readByte_writeByte_same (m : List Int) (j b : Int)
    (h0 : 0 ≤ j) (hlt : j.toNat < m.length) :
    readByte (writeByte m j b) j = b % 256 := by
  unfold readByte writeByte
  rw [if_pos h0, if_pos h0, List.getD_eq_getElem?_getD, List.getElem?_set_self hlt]
  rfl

theorem readByte_writeByte_ne (m : List Int) (i j b : Int) (hne : i ≠ j) :
    readByte (writeByte m j b) i = readByte m i := by
  unfold readByte writeByte
  by_cases h0 : 0 ≤ j
  · rw [if_pos h0]
    by_cases hi : 0 ≤ i
    · rw [if_pos hi, if_pos hi, List.getD_eq_getElem?_getD, List.getD_eq_getElem?_getD,
        List.getElem?_set_ne (by omega : j.toNat ≠ i.toNat)]
    · rw [if_neg hi, if_neg hi]
  · rw [if_neg h0]

theorem readByte_writeInt_outside (m : List Int) (i j v : Int)
    (h : i < j ∨ j + 4 ≤ i) :
    readByte (writeInt m j v) i = readByte m i := by
  unfold writeInt
  rw [readByte_writeByte_ne _ _ _ _ (by omega), readByte_writeByte_ne _ _ _ _ (by omega),
    readByte_writeByte_ne _ _ _ _ (by omega), readByte_writeByte_ne _ _ _ _ (by omega)]

theorem readInt_writeInt_outside (m : List Int) (i j v : Int)
    (h : i + 4 ≤ j ∨ j + 4 ≤ i) :
    readInt (writeInt m j v) i = readInt m i := by
  unfold readInt
  rw [readByte_writeInt_outside _ _ _ _ (by omega), readByte_writeInt_outside _ _ _ _ (by omega),
    readByte_writeInt_outside _ _ _ _ (by omega), readByte_writeInt_outside _ _ _ _ (by omega)]

theorem readInt_writeInt_same (m : List Int) (j v : Int)
    (h0 : 0 ≤ j) (hlt : j.toNat + 4 ≤ m.length) :
    readInt (writeInt m j v) j = sign32 v := by
  have hu0 : (0:Int) ≤ v % 4294967296 := Int.emod_nonneg v (by norm_num)
  have hu1 : v % 4294967296 < 4294967296 := Int.emod_lt_of_pos v (by norm_num)
  simp only [readInt, writeInt]
  rw [readByte_writeByte_ne _ _ _ _ (by omega), readByte_writeByte_ne _ _ _ _ (by omega),
    readByte_writeByte_ne _ _ _ _ (by omega),
    readByte_writeByte_same _ _ _ h0 (by (try simp only [writeByte_length]); omega),
    readByte_writeByte_ne _ _ _ _ (by omega), readByte_writeByte_ne _ _ _ _ (by omega),
    readByte_writeByte_same _ _ _ (by omega) (by (try simp only [writeByte_length]); omega),
    readByte_writeByte_ne _ _ _ _ (by omega),
    readByte_writeByte_same _ _ _ (by omega) (by (try simp only [writeByte_length]); omega),
    readByte_writeByte_same _ _ _ (by omega) (by (try simp only [writeByte_length]); omega)]
  have hsum : v % 4294967296 % 256 % 256 + 256 * (v % 4294967296 / 256 % 256 % 256)
      + 65536 * (v % 4294967296 / 65536 % 256 % 256)
      + 16777216 * (v % 4294967296 / 16777216 % 256 % 256) = v % 4294967296 := by
    omega
  rw [hsum]
  unfold sign32
  rfl

theorem constructA_err (sT : Nat) (m0 : List Int) (h : m0.length < sT + 8) :
    constructA sT m0 = Except.error () := by
  unfold constructA
  rw [if_pos h]

theorem constructA_ok (sT : Nat) (m0 : List Int) (h : ¬(m0.length < sT + 8)) :
    constructA sT m0 = Except.ok (writeInt (writeInt m0 0 ((m0.length : Int) - 8))
      ((m0.length : Int) - 4) ((m0.length : Int) - 8)) := by
  unfold constructA
  rw [if_neg h]

theorem construct_header (m0 : List Int) (h8 : 8 ≤ m0.length)
    (hsm : (m0.length : Int) - 8 < 2147483648) :
    readInt (writeInt (writeInt m0 0 ((m0.length : Int) - 8))
      ((m0.length : Int) - 4) ((m0.length : Int) - 8)) 0 = (m0.length : Int) - 8 := by
  rw [readInt_writeInt_outside _ _ _ _ (by omega),
    readInt_writeInt_same _ _ _ (by omega) (by simp; omega)]
  exact sign32_eq_self _ (by omega) (by omega)

theorem construct_footer (m0 : List Int) (h8 : 8 ≤ m0.length)
    (hsm : (m0.length : Int) - 8 < 2147483648) :
    readInt (writeInt (writeInt m0 0 ((m0.length : Int) - 8))
      ((m0.length : Int) - 4) ((m0.length : Int) - 8)) ((m0.length : Int) - 4)
      = (m0.length : Int) - 8 := by
  rw [readInt_writeInt_same _ _ _ (by omega) (by simp only [writeInt_length]; omega)]
  exact sign32_eq_self _ (by omega) (by omega)

theorem construct_valid (sT : Nat) (m0 : List Int) (hsT : 0 < sT)
    (hge : sT + 8 ≤ m0.length) (hsm : (m0.length : Int) - 8 < 2147483648) :
    validB sT (writeInt (writeInt m0 0 ((m0.length : Int) - 8))
      ((m0.length : Int) - 4) ((m0.length : Int) - 8)) = true := by
  have h8 : 8 ≤ m0.length := by omega
  have hh := construct_header m0 h8 hsm
  have hf := construct_footer m0 h8 hsm
  have hlenc : (writeInt (writeInt m0 0 ((m0.length : Int) - 8))
      ((m0.length : Int) - 4) ((m0.length : Int) - 8)).length = m0.length := by
    simp only [writeInt_length]
  unfold validB
  rw [hlenc, validAux_succ, if_pos (by rw [hlenc]; push_cast; omega)]
  rw [show ((0 : Nat) : Int) = (0 : Int) from rfl, hh]
  have hna : (((m0.length : Int) - 8).natAbs + 4) = m0.length - 4 := by omega
  rw [hna]
  rw [show (0 : Int) + (((((m0.length : Int) - 8).natAbs : Nat) : Int) + 4)
      = (m0.length : Int) - 4 by omega, hf]
  rw [if_neg (by simp)]
  rw [if_pos (by omega)]
  rw [if_neg (by simp)]
  rw [if_neg (by omega)]
  exact validAux_exit _ _ _ _ _ (by rw [hlenc]; omega)

theorem travList_zero (m : List Int) (i : Nat) : travList m 0 i = [] := by
  unfold travList
  split <;> rfl

theorem travList_succ (m : List Int) (fuel i : Nat) :
    travList m (fuel + 1) i =
      if (i : Int) < (m.length : Int) - 4 then
        i :: travList m fuel (i + (readInt m i).natAbs + 8)
      else [] := rfl

theorem validAux_sound (sT : Nat) (m : List Int) :
    ∀ (fuel : Nat), ∀ (i : Nat) (cbf : Bool), validAux sT m fuel i cbf = true →
    (∀ o ∈ travList m fuel i, blockOK sT m o) ∧
    List.Chain' (fun o1 o2 : Nat => ¬(0 < readInt m o1 ∧ 0 < readInt m o2))
      (travList m fuel i) ∧
    (cbf = false → ∀ o ∈ (travList m fuel i).head?, ¬ 0 < readInt m (o : Int)) := by
  intro fuel
  induction fuel with
  | zero =>
    intro i cbf _
    rw [travList_zero]
    refine ⟨by simp, by simp, by simp⟩
  | succ fuel ih =>
    intro i cbf hv
    rw [travList_succ]
    by_cases hc : (i : Int) < (m.length : Int) - 4
    · rw [if_pos hc]
      rw [validAux_succ, if_pos hc] at hv
      rw [show (i : Int) + ((((readInt m (i : Int)).natAbs : Nat) : Int) + 4)
          = ((i + (readInt m (i : Int)).natAbs + 4 : Nat) : Int) by push_cast; ring] at hv
      by_cases hne : readInt m (i : Int)
          = readInt m ((i + (readInt m (i : Int)).natAbs + 4 : Nat) : Int)
      case neg =>
        rw [if_pos hne] at hv
        cases hv
      case pos =>
        rw [if_neg (not_ne_iff.mpr hne)] at hv
        have hbok1 : readInt m (i : Int)
            = readInt m ((i + (readInt m (i : Int)).natAbs + 4 : Nat) : Int) := hne
        have hstep : (i + ((readInt m (i : Int)).natAbs + 4) + 4 : Nat)
            = (i + (readInt m (i : Int)).natAbs + 8 : Nat) := by omega
        by_cases hpos : 0 < readInt m (i : Int)
        · cases cbf with
          | false =>
            rw [if_pos hpos] at hv
            simp only [Bool.not_false, if_true, ite_true] at hv
            cases hv
          | true =>
            rw [if_pos hpos] at hv
            simp only [Bool.not_true, Bool.false_eq_true, if_false] at hv
            by_cases hsmall : readInt m (i : Int) < (sT : Int)
            · rw [if_pos hsmall] at hv
              cases hv
            · rw [if_neg hsmall] at hv
              rw [hstep] at hv
              obtain ⟨hall, hchain, hhead⟩ := ih _ false hv
              refine ⟨?_, ?_, ?_⟩
              · intro o ho
                rcases List.mem_cons.mp ho with rfl | ho
                · exact ⟨hbok1, fun _ => by omega⟩
                · exact hall o ho
              · rw [List.chain'_cons']
                refine ⟨?_, hchain⟩
                intro y hy
                have := hhead rfl y hy
                omega
              · intro hcbf
                cases hcbf
        · rw [if_neg hpos] at hv
          rw [hstep] at hv
          obtain ⟨hall, hchain, hhead⟩ := ih _ true hv
          refine ⟨?_, ?_, ?_⟩
          · intro o ho
            rcases List.mem_cons.mp ho with rfl | ho
            · exact ⟨hbok1, fun hp => absurd hp hpos⟩
            · exact hall o ho
          · rw [List.chain'_cons']
            refine ⟨fun y hy => fun h => hpos h.1, hchain⟩
          · intro hcbf
            simp only [List.head?_cons, Option.mem_def, Option.some_inj]
            rintro o rfl
            exact hpos
    · rw [if_neg hc]
      refine ⟨by simp, by simp, by simp⟩

/-!
Claim theorems.  Each claim of the specification is settled below; the
`Except.error ()` outcome of `allocate`/`constructA` models the thrown
`bad_alloc`, and `DResult.err = true` models the thrown `invalid_argument`.
-/

/-- C1 (code bug): after constructing `Allocator<int, 100>` the validity
predicate holds, and `allocate(23)` is an exact fit (92 bytes) that returns
successfully; but the `size_t` subtraction `old - (n + 2*sizeof(int))` in the
split test underflows, so the split branch runs: it overwrites the block's
footer with -8 and attempts a sentinel write at offset 100 = N (out of
bounds).  The validity predicate is false after this successful mutating
call, contradicting the claim (and the source's own `assert(valid())`). -/
theorem C1_invariant_broken_by_exact_fit :
    validB 4 demo100 = true ∧
    (allocate 4 demo100 23).1 = Except.ok 4 ∧
    validB 4 (allocate 4 demo100 23).2 = false := by decide

/-- C2 (counterexample): on a valid buffer with one free block of payload
P = 16 and `sizeof(T) = 4`, `allocate(1)` requests 4 bytes and
`P - requested = 12 ≥ 2*4 + 4`, so the claim requires a split with new
header `-(1*4) = -4`; but the code's split test compares `16 - (4 + 8) = 4`
against `sizeof(T) + 2*sizeof(int) = 12` and fails, so the block is consumed
whole: header and footer become -16, not -4. -/
theorem C2_cex_threshold :
    validB 4 demo24 = true ∧
    (16 : Int) - 4 ≥ 2 * 4 + 4 ∧
    (allocate 4 demo24 1).1 = Except.ok 4 ∧
    readInt (allocate 4 demo24 1).2 0 = -16 ∧
    readInt (allocate 4 demo24 1).2 20 = -16 ∧
    ¬ ((-16 : Int) = -(1 * 4)) := by decide

/-- C3 (code bug): `allocate(21)` consumes the single free block of
`Allocator<int, 100>` whole; deallocating the returned pointer then performs
the left-neighbor inspection read at offset -4 (below the buffer) and the
right-neighbor inspection read at offset 100 = N (past the buffer), because
`*(int*)pc > 0` is evaluated before the bounds tests `pc >= a` and
`pc < a+N`.  The reads trace of the call records both out-of-range
offsets. -/
theorem C3_oob_neighbor_reads :
    (allocate 4 demo100 21).1 = Except.ok 4 ∧
    (allocate 4 demo100 21).2.length = 100 ∧
    (deallocate (allocate 4 demo100 21).2 4 7).reads = [0, -4, 100] ∧
    (deallocate (allocate 4 demo100 21).2 4 7).err = false := by decide

/-- C4: on every buffer satisfying the invariants, `allocate(0)` fails with
`bad_alloc` and `allocate(count)` whose byte size exceeds every free block's
payload also fails with `bad_alloc`, and in both cases the buffer is
byte-for-byte unchanged. -/
theorem C4_allocate_failure_unchanged (sT count : Nat) (bs : List Block)
    (hwf : blocksWF sT bs)
    (hs64 : count * sT < 18446744073709551616)
    (hnofit : ∀ b ∈ bs, 0 < b.tag → b.tag < ((count * sT : Nat) : Int)) :
    allocate sT (encBlocks bs) 0 = (Except.error (), encBlocks bs) ∧
    allocate sT (encBlocks bs) count = (Except.error (), encBlocks bs) := by
  refine ⟨allocate_count_zero sT (encBlocks bs), ?_⟩
  apply allocate_no_fit sT count bs (fun b hb => (hwf.1 b hb).1) hs64
  rintro b hb ⟨hle, hpos⟩
  exact absurd (hnofit b hb hpos) (by omega)

theorem C4_witness :
    (blocksWF 4 [⟨4, [0, 0, 0, 0]⟩] ∧ 2 * 4 < 18446744073709551616 ∧
      (∀ b ∈ [(⟨4, [0, 0, 0, 0]⟩ : Block)], 0 < b.tag → b.tag < ((2 * 4 : Nat) : Int))) ∧
    allocate 4 (encBlocks [⟨4, [0, 0, 0, 0]⟩]) 0
      = (Except.error (), encBlocks [⟨4, [0, 0, 0, 0]⟩]) ∧
    allocate 4 (encBlocks [⟨4, [0, 0, 0, 0]⟩]) 2
      = (Except.error (), encBlocks [⟨4, [0, 0, 0, 0]⟩]) :=
  ⟨⟨by decide, by decide, by decide⟩,
   C4_allocate_failure_unchanged 4 2 [⟨4, [0, 0, 0, 0]⟩] (by decide) (by decide) (by decide)⟩

/-- C5: on every buffer satisfying the invariants, `deallocate(p)` fails with
`invalid_argument` if and only if `p` is not the payload start of a current
block (`blockAt` finds none) or the block whose payload starts at `p` has a
positive (free) sentinel; and on failure the buffer is byte-for-byte
unchanged. -/
theorem C5_deallocate_error_iff (sT : Nat) (bs : List Block) (p : Int) (k : Nat)
    (hwf : blocksWF sT bs) :
    ((deallocate (encBlocks bs) p k).err = true
      ↔ (blockAt 0 p bs = none ∨ ∃ b, blockAt 0 p bs = some b ∧ 0 < b.tag)) ∧
    ((deallocate (encBlocks bs) p k).err = true →
      (deallocate (encBlocks bs) p k).mem = encBlocks bs) := by
  have hshapes : ∀ b ∈ bs, b.wfShape := fun b hb => (hwf.1 b hb).1
  have hpv := pointer_valid_blocks sT bs p hshapes
  cases hba : blockAt 0 p bs with
  | none =>
    have hnotin : p ∉ payloadStarts 0 bs := by
      rw [← blockAt_isSome p bs 0, hba]
      simp
    have hpvf : pointer_valid (encBlocks bs) p = false := by
      rcases Bool.eq_false_or_eq_true (pointer_valid (encBlocks bs) p) with h | h
      · exact absurd (hpv.mp h) hnotin
      · exact h
    rw [deallocate_not_pv _ _ _ hpvf]
    exact ⟨by simp, fun _ => rfl⟩
  | some b =>
    have hin : p ∈ payloadStarts 0 bs := by
      rw [← blockAt_isSome p bs 0, hba]
      rfl
    have hpvt : pointer_valid (encBlocks bs) p = true := hpv.mpr hin
    have hread : readInt (encBlocks bs) (p - 4) = b.tag := by
      have h := readInt_blockAt_header bs [] [] p b hshapes (by simpa using hba)
      simpa using h
    by_cases hbt : 0 < b.tag
    · rw [deallocate_free_hdr _ _ _ hpvt (by rwa [hread])]
      refine ⟨?_, fun _ => rfl⟩
      simp only [true_iff]
      exact Or.inr ⟨b, rfl, hbt⟩
    · have hef := deallocate_err_false (encBlocks bs) p k hpvt (by rwa [hread])
      rw [hef]
      refine ⟨?_, by simp⟩
      simp only [Bool.false_eq_true, false_iff]
      rintro (hnone | ⟨b', hsome, hbt'⟩)
      · cases hnone
      · cases hsome
        exact hbt hbt'

theorem C5_witness :
    blocksWF 4 [⟨-4, [7, 7, 7, 7]⟩] ∧
    (((deallocate (encBlocks [⟨-4, [7, 7, 7, 7]⟩]) 9 0).err = true
        ↔ (blockAt 0 9 [⟨-4, [7, 7, 7, 7]⟩] = none
           ∨ ∃ b, blockAt 0 9 [⟨-4, [7, 7, 7, 7]⟩] = some b ∧ 0 < b.tag)) ∧
      ((deallocate (encBlocks [⟨-4, [7, 7, 7, 7]⟩]) 9 0).err = true →
        (deallocate (encBlocks [⟨-4, [7, 7, 7, 7]⟩]) 9 0).mem
          = encBlocks [⟨-4, [7, 7, 7, 7]⟩])) :=
  ⟨by decide, C5_deallocate_error_iff 4 [⟨-4, [7, 7, 7, 7]⟩] 9 0 (by decide)⟩

/-- C6 (counterexample): with `sizeof(T) = 4` and capacity
N = 2147483656 = 2^31 + 8, construction succeeds (N is large enough), but
`int avail = N - 2*sizeof(int)` narrows 2^31 to the `int` -2^31, so the
header sentinel reads back as -2147483648 instead of the claimed
`N - 2*sentinel_width = 2147483648`. -/
theorem C6_cex_overflow :
    constructA 4 (List.replicate 2147483656 0) = Except.ok c6big ∧
    readInt c6big 0 = -2147483648 ∧
    ¬(readInt c6big 0 = ((2147483656 : Nat) : Int) - 8) := by
  have hlen : (List.replicate 2147483656 (0 : Int)).length = 2147483656 :=
    List.length_replicate _ _
  have h1 : constructA 4 (List.replicate 2147483656 0) = Except.ok c6big := by
    rw [constructA_ok _ _ (by rw [hlen]; omega)]
    unfold c6big
    rw [hlen]
  have h2 : readInt c6big 0 = -2147483648 := by
    unfold c6big
    rw [readInt_writeInt_outside _ _ _ _ (by omega),
      readInt_writeInt_same _ _ _ (by omega) (by rw [hlen]; omega)]
    decide
  exact ⟨h1, h2, by rw [h2]; omega⟩

/-- C6 (amended): construction with capacity N fails with `bad_alloc` if and
only if `N < sizeof(T) + 2*sentinel_width`; on success, provided
`N - 2*sentinel_width` fits a signed 32-bit int, the buffer holds one free
block: sentinels at offsets 0 and `N - sentinel_width` both equal to
`N - 2*sentinel_width`, and the validity predicate holds. -/
theorem C6_construct (sT N : Nat) (m0 : List Int) (hsT : 0 < sT) (hlen : m0.length = N)
    (hsm : (N : Int) - 8 < 2147483648) :
    (constructA sT m0 = Except.error () ↔ N < sT + 8) ∧
    (sT + 8 ≤ N → ∃ mc, constructA sT m0 = Except.ok mc ∧
      readInt mc 0 = (N : Int) - 8 ∧ readInt mc ((N : Int) - 4) = (N : Int) - 8 ∧
      validB sT mc = true) := by
  subst hlen
  constructor
  · constructor
    · intro herr
      by_contra hge
      rw [constructA_ok _ _ (by omega)] at herr
      cases herr
    · intro hlt
      exact constructA_err _ _ hlt
  · intro hge
    exact ⟨_, constructA_ok _ _ (by omega), construct_header _ (by omega) hsm,
      construct_footer _ (by omega) hsm, construct_valid _ _ hsT (by omega) hsm⟩

theorem C6_witness :
    (0 < 4 ∧ (List.replicate 12 (0 : Int)).length = 12 ∧ (12 : Int) - 8 < 2147483648) ∧
    ((constructA 4 (List.replicate 12 (0 : Int)) = Except.error () ↔ 12 < 4 + 8) ∧
     (4 + 8 ≤ 12 → ∃ mc, constructA 4 (List.replicate 12 (0 : Int)) = Except.ok mc ∧
       readInt mc 0 = (12 : Int) - 8 ∧ readInt mc ((12 : Int) - 4) = (12 : Int) - 8 ∧
       validB 4 mc = true)) :=
  ⟨⟨by decide, by decide, by decide⟩,
   C6_construct 4 12 (List.replicate 12 (0 : Int)) (by decide) (by decide) (by decide)⟩

/-- C7 (counterexample): on `Allocator<int, 100>`, `allocate(1)` splits the
free block; deallocating the returned pointer immediately afterwards
succeeds and re-coalesces the block structure, but the buffer is not
byte-for-byte the pre-allocate buffer: the bytes at offsets 8..15 keep the
interior sentinels written by the split and the flip. -/
theorem C7_cex_split_not_bytewise_restored :
    validB 4 demo100 = true ∧
    (allocate 4 demo100 1).1 = Except.ok 4 ∧
    (deallocate (allocate 4 demo100 1).2 4 1).err = false ∧
    (deallocate (allocate 4 demo100 1).2 4 1).mem ≠ demo100 := by decide
/-- C7 (amended): on every buffer satisfying the invariants, when a
successful `allocate` consumes a free block whole (no split: the code's
leftover test fails, i.e. `2*sw ≤ P - requested < sizeof(T) + 4*sw`),
the immediately following `deallocate` of the returned pointer succeeds,
skips both neighbor merges (the neighbors of a free block are allocated by
the invariants, or absent), and restores the buffer byte-for-byte. -/
theorem C7_roundtrip_consume_whole (sT count k : Nat) (pre post : List Block) (t : Int)
    (pl : List Int)
    (hwf : blocksWF sT (pre ++ ⟨t, pl⟩ :: post))
    (hpos : 0 < t)
    (hfit : ((count * sT : Nat) : Int) ≤ t)
    (h8 : 8 ≤ t - ((count * sT : Nat) : Int))
    (hlt : t - ((count * sT : Nat) : Int) < (sT : Int) + 16)
    (hpre : ∀ b' ∈ pre, 0 < b'.tag → b'.tag < ((count * sT : Nat) : Int))
    (hs64 : count * sT < 18446744073709551616) (hn0 : 0 < count * sT) :
    allocate sT (encBlocks (pre ++ ⟨t, pl⟩ :: post)) count
      = (Except.ok (((encBlocks pre).length : Int) + 4), encBlocks (pre ++ ⟨-t, pl⟩ :: post)) ∧
    deallocate (encBlocks (pre ++ ⟨-t, pl⟩ :: post)) (((encBlocks pre).length : Int) + 4) k
      = ⟨false, encBlocks (pre ++ ⟨t, pl⟩ :: post),
         [((encBlocks pre).length : Int), ((encBlocks pre).length : Int) - 4,
          ((encBlocks pre).length : Int) + t + 8]⟩ := by
  have hmemtp : (⟨t, pl⟩ : Block) ∈ pre ++ ⟨t, pl⟩ :: post := by simp
  obtain ⟨ht0, htlt, hplen⟩ := (hwf.1 ⟨t, pl⟩ hmemtp).1
  have htlt2 : t.natAbs < 2147483648 := htlt
  have ht02 : t ≠ 0 := ht0
  have hshapes : ∀ b ∈ pre ++ ⟨t, pl⟩ :: post, b.wfShape := fun b hb => (hwf.1 b hb).1
  have hwfpre : ∀ b' ∈ pre, b'.wfShape := fun b hb => hshapes b (by simp [hb])
  have hpre' : ∀ b' ∈ pre, ¬(((count * sT : Nat) : Int) ≤ b'.tag ∧ 0 < b'.tag) := by
    rintro b' hb' ⟨hle, hbpos⟩
    exact absurd (hpre b' hb' hbpos) (by omega)
  have hmform : encBlocks (pre ++ ⟨t, pl⟩ :: post)
      = encBlocks pre ++ Block.enc ⟨t, pl⟩ ++ encBlocks post := by
    rw [encBlocks_append, encBlocks_cons]
    simp [List.append_assoc]
  have hmformA : encBlocks (pre ++ ⟨-t, pl⟩ :: post)
      = encBlocks pre ++ Block.enc ⟨-t, pl⟩ ++ encBlocks post := by
    rw [encBlocks_append, encBlocks_cons]
    simp [List.append_assoc]
  have hlenpre : pre.length ≤ (encBlocks pre).length := length_le_encBlocks pre
  have hlentot : (encBlocks pre).length + 8 ≤ (encBlocks (pre ++ ⟨t, pl⟩ :: post)).length := by
    rw [hmform]
    simp only [List.length_append, Block.enc_length]
    omega
  have hfuel1 : (encBlocks (pre ++ ⟨t, pl⟩ :: post)).length + 1 - pre.length
      = ((encBlocks (pre ++ ⟨t, pl⟩ :: post)).length - pre.length) + 1 := by omega
  have halloc := allocate_to_found sT count pre ⟨t, pl⟩ post hwfpre hpre' hs64 hn0
  rw [hfuel1] at halloc
  have hfound := allocateAux_found_whole sT (count * sT) (encBlocks pre) ⟨t, pl⟩
    (encBlocks post) ((encBlocks (pre ++ ⟨t, pl⟩ :: post)).length - pre.length)
    ⟨ht0, htlt, hplen⟩ hpos hfit h8 hlt
  rw [← hmform] at hfound
  have hallocfin : allocate sT (encBlocks (pre ++ ⟨t, pl⟩ :: post)) count
      = (Except.ok (((encBlocks pre).length : Int) + 4), encBlocks (pre ++ ⟨-t, pl⟩ :: post)) := by
    rw [halloc, hfound, hmformA]
  refine ⟨hallocfin, ?_⟩
  have hplen' : pl.length = t.natAbs := hplen
  have hshA : Block.wfShape ⟨-t, pl⟩ := by
    refine ⟨by simp; omega, ?_, ?_⟩
    · simpa [Int.natAbs_neg] using htlt
    · simpa [Int.natAbs_neg] using hplen'
  have hshapesA : ∀ b ∈ pre ++ ⟨-t, pl⟩ :: post, b.wfShape := by
    intro b hb
    rcases List.mem_append.mp hb with hb | hb
    · exact hwfpre b hb
    · rcases List.mem_cons.mp hb with rfl | hb
      · exact hshA
      · exact hshapes b (by simp [hb])
  have hpv : pointer_valid (encBlocks (pre ++ ⟨-t, pl⟩ :: post))
      (((encBlocks pre).length : Int) + 4) = true := by
    rw [pointer_valid_blocks sT _ _ hshapesA]
    have hmem := payloadStarts_middle ⟨-t, pl⟩ post pre hwfpre 0
    simpa using hmem
  have hresA : encBlocks (pre ++ ⟨-t, pl⟩ :: post)
      = encBlocks pre ++ encInt (-t) ++ (pl ++ (encInt (-t) ++ encBlocks post)) := by
    rw [hmformA]
    simp [Block.enc, List.append_assoc]
  have hr0 : readInt (encBlocks (pre ++ ⟨-t, pl⟩ :: post))
      ((((encBlocks pre).length : Int) + 4) - 4) = -t := by
    rw [hresA, readInt_at_of_eq _ _ _ _ (by ring)]
    exact sign32_eq_self _ (by omega) (by omega)
  have hw1 : writeInt (encBlocks (pre ++ ⟨-t, pl⟩ :: post))
      ((((encBlocks pre).length : Int) + 4) - 4) t
      = encBlocks pre ++ encInt t ++ (pl ++ (encInt (-t) ++ encBlocks post)) := by
    rw [hresA]
    exact writeInt_at_of_eq _ _ _ _ _ (encInt_length _) (by ring)
  have hw2 : writeInt (encBlocks pre ++ encInt t ++ (pl ++ (encInt (-t) ++ encBlocks post)))
      ((((encBlocks pre).length : Int) + 4) + t) t
      = encBlocks (pre ++ ⟨t, pl⟩ :: post) := by
    have hsh2 : encBlocks pre ++ encInt t ++ (pl ++ (encInt (-t) ++ encBlocks post))
        = (encBlocks pre ++ encInt t ++ pl) ++ encInt (-t) ++ encBlocks post := by
      simp [List.append_assoc]
    rw [hsh2, writeInt_at_of_eq _ _ _ _ _ (encInt_length _)
      (by simp only [List.length_append, encInt_length]; push_cast; omega)]
    rw [hmform]
    simp [Block.enc, List.append_assoc]
  have hm2 : encBlocks (pre ++ ⟨t, pl⟩ :: post)
      = writeInt (writeInt (encBlocks (pre ++ ⟨-t, pl⟩ :: post))
          ((((encBlocks pre).length : Int) + 4) - 4) t)
          ((((encBlocks pre).length : Int) + 4) + t) t := by
    rw [hw1, hw2]
  have hL : ¬(0 < readInt (encBlocks (pre ++ ⟨t, pl⟩ :: post))
      ((((encBlocks pre).length : Int) + 4) - 8)
      ∧ 0 ≤ (((encBlocks pre).length : Int) + 4) - 8) := by
    rcases List.eq_nil_or_concat pre with rfl | ⟨pre', bL, rfl⟩
    · rintro ⟨-, hge⟩
      simp only [encBlocks_nil, List.length_nil] at hge
      omega
    · simp only [List.concat_eq_append] at *
      obtain ⟨hbL0, hbLlt, hbLlen⟩ := hwfpre bL (by simp)
      have hbLneg : bL.tag < 0 := by
        have hchain := hwf.2
        obtain ⟨-, -, hlink⟩ := List.chain'_append.mp hchain
        have hRR : ¬(0 < bL.tag ∧ 0 < t) := hlink bL (by simp) ⟨t, pl⟩ (by simp)
        omega
      have hreadL : readInt (encBlocks ((pre' ++ [bL]) ++ ⟨t, pl⟩ :: post))
          ((((encBlocks (pre' ++ [bL])).length : Int) + 4) - 8) = bL.tag := by
        have hstruct : encBlocks ((pre' ++ [bL]) ++ ⟨t, pl⟩ :: post)
            = (encBlocks pre' ++ encInt bL.tag ++ bL.payload) ++ encInt bL.tag
              ++ (Block.enc ⟨t, pl⟩ ++ encBlocks post) := by
          rw [encBlocks_append, encBlocks_append, encBlocks_cons, encBlocks_cons, encBlocks_nil]
          simp [Block.enc, List.append_assoc]
        rw [hstruct, readInt_at_of_eq _ _ _ _ ?_]
        · exact sign32_eq_self _ (by omega) (by omega)
        · have hlen2 : (encBlocks (pre' ++ [bL])).length
              = (encBlocks pre').length + (8 + bL.payload.length) := by
            rw [encBlocks_append, encBlocks_cons, encBlocks_nil]
            simp [Block.enc_length]
          simp only [List.length_append, encInt_length]
          omega
      rintro ⟨hgt, -⟩
      rw [hreadL] at hgt
      omega
  have hR : ¬(0 < readInt (encBlocks (pre ++ ⟨t, pl⟩ :: post))
      ((((encBlocks pre).length : Int) + 4) + t + 4)
      ∧ (((encBlocks pre).length : Int) + 4) + t + 4
        < ((encBlocks (pre ++ ⟨t, pl⟩ :: post)).length : Int)) := by
    cases post with
    | nil =>
      rintro ⟨-, hlt'⟩
      rw [hmform] at hlt'
      simp only [List.length_append, Block.enc_length, encBlocks_nil, List.length_nil] at hlt'
      have : pl.length = t.natAbs := hplen'
      push_cast at hlt'
      omega
    | cons bR post' =>
      obtain ⟨hbR0, hbRlt, hbRlen⟩ := hshapes bR (by simp)
      have hbRneg : bR.tag < 0 := by
        have hchain := hwf.2
        obtain ⟨-, hchain2, -⟩ := List.chain'_append.mp hchain
        have hRR : ¬(0 < t ∧ 0 < bR.tag) := (List.chain'_cons.mp hchain2).1
        omega
      have hreadR : readInt (encBlocks (pre ++ ⟨t, pl⟩ :: bR :: post'))
          ((((encBlocks pre).length : Int) + 4) + t + 4) = bR.tag := by
        have hstruct : encBlocks (pre ++ ⟨t, pl⟩ :: bR :: post')
            = (encBlocks pre ++ Block.enc ⟨t, pl⟩) ++ encInt bR.tag
              ++ (bR.payload ++ (encInt bR.tag ++ encBlocks post')) := by
          rw [encBlocks_append, encBlocks_cons, encBlocks_cons]
          simp [Block.enc, List.append_assoc]
        rw [hstruct, readInt_at_of_eq _ _ _ _ ?_]
        · exact sign32_eq_self _ (by omega) (by omega)
        · simp only [List.length_append, Block.enc_length]
          omega
      rintro ⟨hgt, -⟩
      rw [hreadR] at hgt
      omega
  have hres := deallocate_eval_no_merge (encBlocks (pre ++ ⟨-t, pl⟩ :: post))
    (encBlocks (pre ++ ⟨t, pl⟩ :: post)) (((encBlocks pre).length : Int) + 4) k t
    hpv hr0 hpos hm2 hL hR
  rw [hres]
  have e1 : (((encBlocks pre).length : Int) + 4) - 4 = ((encBlocks pre).length : Int) := by ring
  have e2 : (((encBlocks pre).length : Int) + 4) - 8 = ((encBlocks pre).length : Int) - 4 := by ring
  have e3 : (((encBlocks pre).length : Int) + 4) + t + 4
      = ((encBlocks pre).length : Int) + t + 8 := by ring
  rw [e1, e2, e3]


theorem C7_witness :
    (blocksWF 4 [⟨12, List.replicate 12 0⟩] ∧ (0 : Int) < 12
      ∧ ((1 * 4 : Nat) : Int) ≤ 12 ∧ (8 : Int) ≤ 12 - ((1 * 4 : Nat) : Int)
      ∧ (12 : Int) - ((1 * 4 : Nat) : Int) < (4 : Int) + 16
      ∧ 1 * 4 < 18446744073709551616 ∧ 0 < 1 * 4) ∧
    (allocate 4 (encBlocks ([] ++ ⟨12, List.replicate 12 0⟩ :: [])) 1
      = (Except.ok (((encBlocks ([] : List Block)).length : Int) + 4),
         encBlocks ([] ++ ⟨-12, List.replicate 12 0⟩ :: [])) ∧
     deallocate (encBlocks ([] ++ ⟨-12, List.replicate 12 0⟩ :: []))
        (((encBlocks ([] : List Block)).length : Int) + 4) 5
      = ⟨false, encBlocks ([] ++ ⟨12, List.replicate 12 0⟩ :: []),
         [((encBlocks ([] : List Block)).length : Int),
          ((encBlocks ([] : List Block)).length : Int) - 4,
          ((encBlocks ([] : List Block)).length : Int) + 12 + 8]⟩) :=
  ⟨⟨by decide, by decide, by decide, by decide, by decide, by decide, by decide⟩,
   C7_roundtrip_consume_whole 4 1 5 [] [] 12 (List.replicate 12 0)
     (by decide) (by decide) (by decide) (by decide) (by decide) (by decide)
     (by decide) (by decide)⟩
/-- C2 (amended): on every buffer satisfying the invariants, for the first
sufficiently large free block of payload P, provided
`P - requested ≥ 2*sentinel_width` (no unsigned underflow in the split
test), `allocate` splits the block if and only if
`P - requested ≥ sizeof(T) + 4*sentinel_width` — writing header/footer
`-requested` and a new free block of payload
`P - requested - 2*sentinel_width` immediately after — and otherwise
consumes it whole, flipping only that block's header and footer sign.
(When `P - requested < 2*sentinel_width`, the `size_t` subtraction
underflows and the split branch corrupts the buffer; see C1.) -/
theorem C2_split_iff (sT count : Nat) (pre post : List Block) (t : Int) (pl : List Int)
    (hwf : blocksWF sT (pre ++ ⟨t, pl⟩ :: post))
    (hpos : 0 < t)
    (hfit : ((count * sT : Nat) : Int) ≤ t)
    (h8 : 8 ≤ t - ((count * sT : Nat) : Int))
    (hpre : ∀ b' ∈ pre, 0 < b'.tag → b'.tag < ((count * sT : Nat) : Int))
    (hs64 : count * sT < 18446744073709551616) (hn0 : 0 < count * sT) :
    allocate sT (encBlocks (pre ++ ⟨t, pl⟩ :: post)) count
      = (Except.ok (((encBlocks pre).length : Int) + 4),
         if (sT : Int) + 16 ≤ t - ((count * sT : Nat) : Int)
         then encBlocks (pre ++ ⟨-((count * sT : Nat) : Int), pl.take (count * sT)⟩
                :: ⟨t - ((count * sT : Nat) : Int) - 8, pl.drop (count * sT + 8)⟩ :: post)
         else encBlocks (pre ++ ⟨-t, pl⟩ :: post)) := by
  have hmemtp : (⟨t, pl⟩ : Block) ∈ pre ++ ⟨t, pl⟩ :: post := by simp
  obtain ⟨ht0, htlt, hplen⟩ := (hwf.1 ⟨t, pl⟩ hmemtp).1
  have hshapes : ∀ b ∈ pre ++ ⟨t, pl⟩ :: post, b.wfShape := fun b hb => (hwf.1 b hb).1
  have hwfpre : ∀ b' ∈ pre, b'.wfShape := fun b hb => hshapes b (by simp [hb])
  have hpre' : ∀ b' ∈ pre, ¬(((count * sT : Nat) : Int) ≤ b'.tag ∧ 0 < b'.tag) := by
    rintro b' hb' ⟨hle, hbpos⟩
    exact absurd (hpre b' hb' hbpos) (by omega)
  have hmform : encBlocks (pre ++ ⟨t, pl⟩ :: post)
      = encBlocks pre ++ Block.enc ⟨t, pl⟩ ++ encBlocks post := by
    rw [encBlocks_append, encBlocks_cons]
    simp [List.append_assoc]
  have hlenpre : pre.length ≤ (encBlocks pre).length := length_le_encBlocks pre
  have hlentot : (encBlocks pre).length + 8 ≤ (encBlocks (pre ++ ⟨t, pl⟩ :: post)).length := by
    rw [hmform]
    simp only [List.length_append, Block.enc_length]
    omega
  have hfuel1 : (encBlocks (pre ++ ⟨t, pl⟩ :: post)).length + 1 - pre.length
      = ((encBlocks (pre ++ ⟨t, pl⟩ :: post)).length - pre.length) + 1 := by omega
  have halloc := allocate_to_found sT count pre ⟨t, pl⟩ post hwfpre hpre' hs64 hn0
  rw [hfuel1] at halloc
  by_cases hcase : (sT : Int) + 16 ≤ t - ((count * sT : Nat) : Int)
  · rw [if_pos hcase]
    have hfound := allocateAux_found_split sT (count * sT) (encBlocks pre) ⟨t, pl⟩
      (encBlocks post) ((encBlocks (pre ++ ⟨t, pl⟩ :: post)).length - pre.length)
      ⟨ht0, htlt, hplen⟩ hpos hfit hcase
    rw [← hmform] at hfound
    rw [halloc, hfound]
    have hmform2 : encBlocks (pre ++ ⟨-((count * sT : Nat) : Int), pl.take (count * sT)⟩
          :: ⟨t - ((count * sT : Nat) : Int) - 8, pl.drop (count * sT + 8)⟩ :: post)
        = encBlocks pre ++ Block.enc ⟨-((count * sT : Nat) : Int), pl.take (count * sT)⟩
          ++ Block.enc ⟨t - ((count * sT : Nat) : Int) - 8, pl.drop (count * sT + 8)⟩
          ++ encBlocks post := by
      rw [encBlocks_append, encBlocks_cons, encBlocks_cons]
      simp [List.append_assoc]
    rw [hmform2]
  · rw [if_neg hcase]
    have hlt2 : t - ((count * sT : Nat) : Int) < (sT : Int) + 16 := by omega
    have hfound := allocateAux_found_whole sT (count * sT) (encBlocks pre) ⟨t, pl⟩
      (encBlocks post) ((encBlocks (pre ++ ⟨t, pl⟩ :: post)).length - pre.length)
      ⟨ht0, htlt, hplen⟩ hpos hfit h8 hlt2
    rw [← hmform] at hfound
    rw [halloc, hfound]
    have hmform3 : encBlocks (pre ++ ⟨-t, pl⟩ :: post)
        = encBlocks pre ++ Block.enc ⟨-t, pl⟩ ++ encBlocks post := by
      rw [encBlocks_append, encBlocks_cons]
      simp [List.append_assoc]
    rw [hmform3]

theorem C2_witness :
    (blocksWF 4 [⟨32, List.replicate 32 0⟩] ∧ (0 : Int) < 32
      ∧ ((1 * 4 : Nat) : Int) ≤ 32 ∧ (8 : Int) ≤ 32 - ((1 * 4 : Nat) : Int)
      ∧ 1 * 4 < 18446744073709551616 ∧ 0 < 1 * 4) ∧
    allocate 4 (encBlocks ([] ++ ⟨32, List.replicate 32 0⟩ :: [])) 1
      = (Except.ok (((encBlocks ([] : List Block)).length : Int) + 4),
         if (4 : Int) + 16 ≤ 32 - ((1 * 4 : Nat) : Int)
         then encBlocks ([] ++ ⟨-((1 * 4 : Nat) : Int), (List.replicate 32 0).take (1 * 4)⟩
                :: ⟨32 - ((1 * 4 : Nat) : Int) - 8, (List.replicate 32 0).drop (1 * 4 + 8)⟩ :: [])
         else encBlocks ([] ++ ⟨-32, List.replicate 32 (0 : Int)⟩ :: [])) :=
  ⟨⟨by decide, by decide, by decide, by decide, by decide, by decide⟩,
   C2_split_iff 4 1 [] [] 32 (List.replicate 32 0)
     (by decide) (by decide) (by decide) (by decide) (by decide) (by decide) (by decide)⟩

/-- C8 (counterexample): `valid` returns true on a 16-byte buffer whose
traversal stops at offset 12 (the loop exits as soon as the offset reaches
`N - sizeof(int)`), so the buffer is not consumed exactly: the traversal
does not terminate precisely at byte N = 16. -/
theorem C8_cex_not_exact_consumption :
    validB 4 demo16 = true ∧ ¬ consumesExactly demo16 := by decide

/-- C8 (amended): `valid` returns true only if every block visited by the
traversal — stepping by `payload + 2*sentinel_width` from offset 0 and
stopping at the first offset at or beyond `N - sentinel_width`, which need
not equal N — passes the header/footer match and minimum-free-size checks,
and no two consecutively visited blocks are both free. -/
theorem C8_valid_checks (sT : Nat) (m : List Int) (hv : validB sT m = true) :
    (∀ o ∈ travList m (m.length + 1) 0, blockOK sT m o) ∧
    List.Chain' (fun o1 o2 : Nat => ¬(0 < readInt m o1 ∧ 0 < readInt m o2))
      (travList m (m.length + 1) 0) :=
  ⟨(validAux_sound sT m (m.length + 1) 0 true hv).1,
   (validAux_sound sT m (m.length + 1) 0 true hv).2.1⟩

theorem C8_witness :
    validB 4 (encBlocks [⟨4, [0, 0, 0, 0]⟩]) = true ∧
    ((∀ o ∈ travList (encBlocks [⟨4, [0, 0, 0, 0]⟩])
        ((encBlocks [⟨4, [0, 0, 0, 0]⟩]).length + 1) 0,
        blockOK 4 (encBlocks [⟨4, [0, 0, 0, 0]⟩]) o) ∧
     List.Chain' (fun o1 o2 : Nat =>
        ¬(0 < readInt (encBlocks [⟨4, [0, 0, 0, 0]⟩]) o1
          ∧ 0 < readInt (encBlocks [⟨4, [0, 0, 0, 0]⟩]) o2))
       (travList (encBlocks [⟨4, [0, 0, 0, 0]⟩])
         ((encBlocks [⟨4, [0, 0, 0, 0]⟩]).length + 1) 0)) :=
  ⟨by decide, C8_valid_checks 4 (encBlocks [⟨4, [0, 0, 0, 0]⟩]) (by decide)⟩

/-- C9: the equality operator returns true and the inequality operator
returns false for every two allocator instances, whatever their buffers. -/
theorem C9_always_equal : ∀ x y : List Int, allocEq x y = true ∧ allocNeq x y = false :=
  fun _ _ => ⟨rfl, rfl⟩

/-- C10: `deallocate` never uses its size argument, so for every buffer,
every pointer, and any two size arguments the results — error outcome,
resulting buffer, and performed reads — are identical. -/
theorem C10_size_argument_unused :
    ∀ (m : List Int) (p : Int) (k1 k2 : Nat), deallocate m p k1 = deallocate m p k2 :=
  fun _ _ _ _ => rfl
